import Mathlib

/-!
# SideNote: a verification of the edge-dock controller and note store

This development embeds the core logic of the SideNote desktop note-taking
application and proves properties about it:

* the edge-docking / auto-hide window-positioning poll from the Electron
  main process (`startEdgePoll` and its neighbor-display detection),
* the note store handlers of the React application (`handleCreateNote`,
  `handleDeleteNote`, `handleUpdateNote`, the title input change handler,
  and the persistence effect that mirrors the notes collection to
  `localStorage` and, when a folder is configured, to `notes.json`),
* the `save-notes` / `load-notes` IPC handlers, including a model of
  `JSON.stringify(notes, null, 2)` and of `JSON.parse`.

Pixel coordinates are embedded as `Int` (Electron bounds are integral),
timestamps as `Int` (JavaScript numbers produced by `Date.now()`).
-/

/-! ## Geometry: display and window rectangles -/

/-- A rectangle as used by Electron `getBounds` / `workArea`:
origin plus extent. -/
structure Rect where
  x : Int
  y : Int
  width : Int
  height : Int
deriving DecidableEq, Repr

/-- A cursor point as returned by `screen.getCursorScreenPoint()`. -/
structure Point where
  x : Int
  y : Int
deriving DecidableEq, Repr

/-- A connected display: identifier, full bounds, and usable work area. -/
structure Display where
  id : Nat
  bounds : Rect
  workArea : Rect
deriving DecidableEq, Repr

/-- The `PEEK_WIDTH` constant of the edge poll (pixels left visible when hidden). -/
def PEEK_WIDTH : Int := 20

/-- The `EDGE_THRESHOLD` constant of the edge poll (dock-classification slack). -/
def EDGE_THRESHOLD : Int := 50

/-- Predicate `hasNeighborLeft` of `startEdgePoll`: some other display's right edge is
within 10px of the current display's left edge while their vertical spans
overlap. -/
def hasNeighborLeft (displays : List Display) (current : Display) : Bool :=
  displays.any fun d =>
    if d.id = current.id then false
    else
      decide ((d.bounds.x + d.bounds.width - current.bounds.x).natAbs < 10 ∧
        max d.bounds.y current.bounds.y <
          min (d.bounds.y + d.bounds.height) (current.bounds.y + current.bounds.height))

/-- Predicate `hasNeighborRight` of `startEdgePoll`: some other display's left edge is
within 10px of the current display's right edge while their vertical spans
overlap. -/
def hasNeighborRight (displays : List Display) (current : Display) : Bool :=
  displays.any fun d =>
    if d.id = current.id then false
    else
      decide ((d.bounds.x - (current.bounds.x + current.bounds.width)).natAbs < 10 ∧
        max d.bounds.y current.bounds.y <
          min (d.bounds.y + d.bounds.height) (current.bounds.y + current.bounds.height))

/-- Classification `isDockedLeft`: window near the work-area's left edge and no left
neighbor display. -/
def isDockedLeft (displays : List Display) (current : Display) (winBounds : Rect) : Prop :=
  (winBounds.x - current.workArea.x).natAbs < 50 ∧ hasNeighborLeft displays current = false

instance (displays : List Display) (current : Display) (winBounds : Rect) :
    Decidable (isDockedLeft displays current winBounds) := by
  unfold isDockedLeft; infer_instance

/-- Classification `isDockedRight`: window's right edge near the work-area's right edge and
no right neighbor display. -/
def isDockedRight (displays : List Display) (current : Display) (winBounds : Rect) : Prop :=
  (winBounds.x + winBounds.width - (current.workArea.x + current.workArea.width)).natAbs < 50 ∧
    hasNeighborRight displays current = false

instance (displays : List Display) (current : Display) (winBounds : Rect) :
    Decidable (isDockedRight displays current winBounds) := by
  unfold isDockedRight; infer_instance

/-- Classification `isHiddenLeft`: the window's x-origin is at or beyond the hidden-left
position, leaving at most the peek strip exposed on the left edge. -/
def isHiddenLeft (winBounds workArea : Rect) : Prop :=
  winBounds.x ≤ workArea.x - winBounds.width + PEEK_WIDTH

instance (winBounds workArea : Rect) : Decidable (isHiddenLeft winBounds workArea) := by
  unfold isHiddenLeft; infer_instance

/-- Classification `isHiddenRight`: the window's x-origin is at or beyond the hidden-right
position, leaving at most the peek strip exposed on the right edge. -/
def isHiddenRight (winBounds workArea : Rect) : Prop :=
  winBounds.x ≥ workArea.x + workArea.width - PEEK_WIDTH

instance (winBounds workArea : Rect) : Decidable (isHiddenRight winBounds workArea) := by
  unfold isHiddenRight; infer_instance

/-- Condition `mouseNearLeft`: cursor within the peek strip at the work-area's left
edge and vertically within the window's span. -/
def mouseNearLeft (cursor : Point) (winBounds workArea : Rect) : Prop :=
  cursor.x ≤ workArea.x + PEEK_WIDTH ∧
    winBounds.y ≤ cursor.y ∧ cursor.y ≤ winBounds.y + winBounds.height

instance (cursor : Point) (winBounds workArea : Rect) :
    Decidable (mouseNearLeft cursor winBounds workArea) := by
  unfold mouseNearLeft; infer_instance

/-- Condition `mouseNearRight`: cursor within the peek strip at the work-area's right
edge and vertically within the window's span. -/
def mouseNearRight (cursor : Point) (winBounds workArea : Rect) : Prop :=
  cursor.x ≥ workArea.x + workArea.width - PEEK_WIDTH ∧
    winBounds.y ≤ cursor.y ∧ cursor.y ≤ winBounds.y + winBounds.height

instance (cursor : Point) (winBounds workArea : Rect) :
    Decidable (mouseNearRight cursor winBounds workArea) := by
  unfold mouseNearRight; infer_instance

/-- Condition `mouseInside`: cursor within the window's current bounds. -/
def mouseInside (cursor : Point) (winBounds : Rect) : Prop :=
  winBounds.x ≤ cursor.x ∧ cursor.x ≤ winBounds.x + winBounds.width ∧
    winBounds.y ≤ cursor.y ∧ cursor.y ≤ winBounds.y + winBounds.height

instance (cursor : Point) (winBounds : Rect) : Decidable (mouseInside cursor winBounds) := by
  unfold mouseInside; infer_instance

/-- One tick of the `startEdgePoll` interval callback: given all displays,
the display nearest the cursor, the cursor position, and the window's
current bounds, compute the window bounds after the tick (the argument of
`setBounds`, or the unchanged bounds when no repositioning happens). -/
def edgeTick (displays : List Display) (current : Display) (cursor : Point)
    (winBounds : Rect) : Rect :=
  if isHiddenLeft winBounds current.workArea then
    if mouseNearLeft cursor winBounds current.workArea ∨ mouseInside cursor winBounds then
      { winBounds with x := current.workArea.x }
    else winBounds
  else if isHiddenRight winBounds current.workArea then
    if mouseNearRight cursor winBounds current.workArea ∨ mouseInside cursor winBounds then
      { winBounds with x := current.workArea.x + current.workArea.width - winBounds.width }
    else winBounds
  else
    if ¬ mouseInside cursor winBounds then
      if isDockedLeft displays current winBounds then
        { winBounds with x := current.workArea.x - winBounds.width + PEEK_WIDTH }
      else if isDockedRight displays current winBounds then
        { winBounds with x := current.workArea.x + current.workArea.width - PEEK_WIDTH }
      else winBounds
    else winBounds

/-! ## The note store

The React application state relevant to the note-store claims: the ordered
note collection, the active selection, and the persistence backends (the
`localStorage` slot under `sidenote-data`, and the `notes.json` file when a
folder path is configured). -/

/-- A note record: identifier, title, markdown content, last-updated
timestamp (`Date.now()` milliseconds). -/
structure Note where
  id : String
  title : String
  content : String
  updatedAt : Int
deriving DecidableEq, Repr

/-- The application state: in-memory notes, active selection, and the
persistence backends. `localStored = none` models an absent
`sidenote-data` key; `notesPath = none` models no configured folder; when a
folder is configured, `fileStored` is the collection recorded in its
`notes.json`. -/
structure AppState where
  notes : List Note
  activeNoteId : Option String
  localStored : Option (List Note)
  notesPath : Option String
  fileStored : List Note
deriving DecidableEq, Repr

/-- The save effect (`useEffect` on `[notes, notesPath, isElectron]`): if the
collection is empty the effect returns before writing; otherwise it
overwrites `localStorage` with the full collection and, when a folder path
is configured, also overwrites the notes file. -/
def saveEffect (s : AppState) : AppState :=
  if s.notes.length = 0 then s
  else
    { s with
      localStored := some s.notes
      fileStored := if s.notesPath.isSome then s.notes else s.fileStored }

/-- Handler `handleCreateNote`: prepend a fresh note (generated identifier, title
"New Note", empty content, current timestamp) and make it active. -/
def handleCreateNote (newId : String) (now : Int) (s : AppState) : AppState :=
  { s with
    notes := { id := newId, title := "New Note", content := "", updatedAt := now } :: s.notes
    activeNoteId := some newId }

/-- Handler `handleDeleteNote`: drop every note whose identifier equals the given
one; if the deleted identifier was active, fall back to the first remaining
note, or to no selection when the collection became empty. -/
def handleDeleteNote (key : String) (s : AppState) : AppState :=
  let newNotes := s.notes.filter fun n => n.id != key
  { s with
    notes := newNotes
    activeNoteId :=
      if s.activeNoteId = some key then newNotes.head?.map Note.id else s.activeNoteId }

/-- Handler `handleUpdateNote`: if there is no active identifier (JavaScript-falsy:
`null` or the empty string), do nothing; otherwise replace the content and
refresh the timestamp of every note whose identifier equals the active
one. -/
def handleUpdateNote (content : String) (now : Int) (s : AppState) : AppState :=
  if s.activeNoteId = none ∨ s.activeNoteId = some "" then s
  else
    { s with
      notes := s.notes.map fun n =>
        if some n.id = s.activeNoteId then { n with content := content, updatedAt := now }
        else n }

/-- The title input `onChange` handler: replace the title of every note
whose identifier equals the active one; the timestamp is not touched. -/
def handleTitleChange (title : String) (s : AppState) : AppState :=
  { s with
    notes := s.notes.map fun n =>
      if some n.id = s.activeNoteId then { n with title := title } else n }

/-- A note-collection mutation as issued by the UI. -/
inductive Mutation where
  | create (newId : String) (now : Int)
  | delete (key : String)
  | updateContent (content : String) (now : Int)
  | updateTitle (title : String)
deriving DecidableEq, Repr

/-- Apply a mutation: run its handler, then the save effect that mirrors the
collection to the persistence backends. -/
def applyMutation (m : Mutation) (s : AppState) : AppState :=
  match m with
  | .create newId now => saveEffect (handleCreateNote newId now s)
  | .delete key => saveEffect (handleDeleteNote key s)
  | .updateContent content now => saveEffect (handleUpdateNote content now s)
  | .updateTitle title => saveEffect (handleTitleChange title s)

/-! ## JSON values, `JSON.stringify(·, null, 2)` and `JSON.parse`

The `save-notes` IPC handler writes `JSON.stringify(notes, null, 2)` to
`notes.json`; the `load-notes` handler reads the file and returns
`JSON.parse` of its contents (or `[]` when the file is absent, or a
rejection when reading or parsing fails). JavaScript numbers are embedded
as `Int` (every stored timestamp is an integer), so the number grammar of
the model covers integers; strings are Unicode scalar sequences. -/

/-- A JSON value as produced by `JSON.parse`. -/
inductive JVal where
  | jnull
  | jbool (b : Bool)
  | jnum (n : Int)
  | jstr (s : String)
  | jarr (elems : List JVal)
  | jobj (fields : List (String × JVal))

/-- The double-quote character. -/
def cQuote : Char := Char.ofNat 34

/-- The backslash character. -/
def cBackslash : Char := Char.ofNat 92

/-- The opening curly bracket. -/
def cLBrace : Char := Char.ofNat 123

/-- The closing curly bracket. -/
def cRBrace : Char := Char.ofNat 125

/-- The newline character. -/
def cNewline : Char := Char.ofNat 10

/-- ASCII decimal digit test. -/
def isDigitC (c : Char) : Bool := 48 ≤ c.toNat && c.toNat ≤ 57

/-- Value of an ASCII decimal digit. -/
def digitVal (c : Char) : Nat := c.toNat - 48

/-- JSON insignificant whitespace: space, tab, newline, carriage return. -/
def isWs (c : Char) : Bool :=
  c.toNat = 32 || c.toNat = 9 || c.toNat = 10 || c.toNat = 13

/-- Skip insignificant whitespace. -/
def skipWs (cs : List Char) : List Char := cs.dropWhile isWs

/-- Value of a hexadecimal digit, if any. -/
def hexVal (c : Char) : Option Nat :=
  if 48 ≤ c.toNat ∧ c.toNat ≤ 57 then some (c.toNat - 48)
  else if 97 ≤ c.toNat ∧ c.toNat ≤ 102 then some (c.toNat - 87)
  else if 65 ≤ c.toNat ∧ c.toNat ≤ 70 then some (c.toNat - 55)
  else none

/-- Body of a JSON string after the opening quote: literal characters and
backslash escapes up to the closing quote, accumulating in reverse.
Unescaped control characters are rejected, as in `JSON.parse`. -/
def parseStringBody : List Char → List Char → Option (String × List Char)
  | [], _ => none
  | c :: rest, acc =>
    if c = cQuote then some (String.mk acc.reverse, rest)
    else if c = cBackslash then
      match rest with
      | [] => none
      | e :: rest2 =>
        if e = cQuote then parseStringBody rest2 (cQuote :: acc)
        else if e = cBackslash then parseStringBody rest2 (cBackslash :: acc)
        else if e = Char.ofNat 47 then parseStringBody rest2 (Char.ofNat 47 :: acc)
        else if e = 'b' then parseStringBody rest2 (Char.ofNat 8 :: acc)
        else if e = 'f' then parseStringBody rest2 (Char.ofNat 12 :: acc)
        else if e = 'n' then parseStringBody rest2 (Char.ofNat 10 :: acc)
        else if e = 'r' then parseStringBody rest2 (Char.ofNat 13 :: acc)
        else if e = 't' then parseStringBody rest2 (Char.ofNat 9 :: acc)
        else if e = 'u' then
          match rest2 with
          | h1 :: h2 :: h3 :: h4 :: rest3 =>
            match hexVal h1, hexVal h2, hexVal h3, hexVal h4 with
            | some a, some b, some c2, some d =>
              parseStringBody rest3 (Char.ofNat (((a * 16 + b) * 16 + c2) * 16 + d) :: acc)
            | _, _, _, _ => none
          | _ => none
        else none
    else if c.toNat < 32 then none
    else parseStringBody rest (c :: acc)

/-- Consume a maximal run of decimal digits, extending the accumulator. -/
def parseDigitsAux : List Char → Nat → Nat × List Char
  | [], acc => (acc, [])
  | c :: rest, acc =>
    if isDigitC c then parseDigitsAux rest (acc * 10 + digitVal c) else (acc, c :: rest)

/-- Whether the remaining input continues a number with a fraction or
exponent part (unsupported in the integer embedding of JS numbers). -/
def numContinues : List Char → Bool
  | [] => false
  | c :: _ => c.toNat = 46 || c.toNat = 101 || c.toNat = 69

/-- A JSON number: optional minus sign and a digit run (the integer
fragment of the grammar; a fraction or exponent is out of the model). -/
def parseNum : List Char → Option (Int × List Char)
  | [] => none
  | c :: rest =>
    if c = Char.ofNat 45 then
      match rest with
      | [] => none
      | d :: _ =>
        if isDigitC d then
          let p := parseDigitsAux rest 0
          if numContinues p.2 then none else some (-(p.1 : Int), p.2)
        else none
    else if isDigitC c then
      let p := parseDigitsAux (c :: rest) 0
      if numContinues p.2 then none else some ((p.1 : Int), p.2)
    else none

mutual

/-- Recursive-descent parser for a JSON value (model of `JSON.parse`). The
`fuel` argument only bounds the recursion depth of the descent; it is
chosen generously at the entry point. -/
def parseVal : Nat → List Char → Option (JVal × List Char)
  | 0, _ => none
  | fuel + 1, cs =>
    match skipWs cs with
    | [] => none
    | c :: rest =>
      if c = cQuote then
        match parseStringBody rest [] with
        | some (s, r) => some (.jstr s, r)
        | none => none
      else if c = Char.ofNat 91 then
        match skipWs rest with
        | c2 :: rest2 =>
          if c2 = Char.ofNat 93 then some (.jarr [], rest2)
          else
            match parseElems fuel (c2 :: rest2) with
            | some (vs, r) => some (.jarr vs, r)
            | none => none
        | [] => none
      else if c = cLBrace then
        match skipWs rest with
        | c2 :: rest2 =>
          if c2 = cRBrace then some (.jobj [], rest2)
          else
            match parseFields fuel (c2 :: rest2) with
            | some (fs, r) => some (.jobj fs, r)
            | none => none
        | [] => none
      else if c = 't' then
        match rest with
        | r1 :: r2 :: r3 :: r4 =>
          if r1 = 'r' ∧ r2 = 'u' ∧ r3 = 'e' then some (.jbool true, r4) else none
        | _ => none
      else if c = 'f' then
        match rest with
        | r1 :: r2 :: r3 :: r4 :: r5 =>
          if r1 = 'a' ∧ r2 = 'l' ∧ r3 = 's' ∧ r4 = 'e' then some (.jbool false, r5) else none
        | _ => none
      else if c = 'n' then
        match rest with
        | r1 :: r2 :: r3 :: r4 =>
          if r1 = 'u' ∧ r2 = 'l' ∧ r3 = 'l' then some (.jnull, r4) else none
        | _ => none
      else
        match parseNum (c :: rest) with
        | some (n, r) => some (.jnum n, r)
        | none => none

/-- The elements of a nonempty JSON array after the opening bracket. -/
def parseElems : Nat → List Char → Option (List JVal × List Char)
  | 0, _ => none
  | fuel + 1, cs =>
    match parseVal fuel cs with
    | none => none
    | some (v, r) =>
      match skipWs r with
      | c :: rest =>
        if c = Char.ofNat 44 then
          match parseElems fuel rest with
          | some (vs, r2) => some (v :: vs, r2)
          | none => none
        else if c = Char.ofNat 93 then some ([v], rest)
        else none
      | [] => none

/-- The fields of a nonempty JSON object after the opening bracket. -/
def parseFields : Nat → List Char → Option (List (String × JVal) × List Char)
  | 0, _ => none
  | fuel + 1, cs =>
    match skipWs cs with
    | c :: rest =>
      if c = cQuote then
        match parseStringBody rest [] with
        | some (k, r) =>
          match skipWs r with
          | c2 :: rest2 =>
            if c2 = Char.ofNat 58 then
              match parseVal fuel rest2 with
              | some (v, r2) =>
                match skipWs r2 with
                | c3 :: rest3 =>
                  if c3 = Char.ofNat 44 then
                    match parseFields fuel rest3 with
                    | some (fs, r3) => some ((k, v) :: fs, r3)
                    | none => none
                  else if c3 = cRBrace then some ([(k, v)], rest3)
                  else none
                | [] => none
              | none => none
            else none
          | [] => none
        | none => none
      else none
    | [] => none

end

/-- Model of `JSON.parse` on a whole document: one value, then only trailing
whitespace. The fuel is generous: six per input character. -/
def parseJson (s : String) : Option JVal :=
  match parseVal (6 * s.data.length + 6) s.data with
  | some (v, r) => if skipWs r = [] then some v else none
  | none => none

/-- Lower-case hexadecimal digit for a value below 16. -/
def hexDigitChar (n : Nat) : Char :=
  if n < 10 then Char.ofNat (48 + n) else Char.ofNat (87 + n)

/-- Model of the `JSON.stringify` escaping of one character: quote, backslash, the named
control escapes, `\u00XX` for the other control characters, and every
other character verbatim. -/
def escC (c : Char) : List Char :=
  if c = cQuote then [cBackslash, cQuote]
  else if c = cBackslash then [cBackslash, cBackslash]
  else if c.toNat = 8 then [cBackslash, 'b']
  else if c.toNat = 9 then [cBackslash, 't']
  else if c.toNat = 10 then [cBackslash, 'n']
  else if c.toNat = 12 then [cBackslash, 'f']
  else if c.toNat = 13 then [cBackslash, 'r']
  else if c.toNat < 32 then
    [cBackslash, 'u', Char.ofNat 48, Char.ofNat 48,
      hexDigitChar (c.toNat / 16), hexDigitChar (c.toNat % 16)]
  else [c]

/-- Escape every character of a string body. -/
def escList (cs : List Char) : List Char := cs.foldr (fun c acc => escC c ++ acc) []

/-- A quoted JSON string literal. -/
def renderString (s : String) : List Char := cQuote :: escList s.data ++ [cQuote]

/-- The ASCII digit of a value below 10. -/
def digitChar (n : Nat) : Char := Char.ofNat (48 + n)

/-- Decimal digits of a natural number, most significant first. -/
def natDigits (n : Nat) : List Char :=
  if n < 10 then [digitChar n]
  else natDigits (n / 10) ++ [digitChar (n % 10)]
termination_by n
decreasing_by omega

/-- Decimal rendering of an integer (`String(number)` for integers). -/
def intChars (n : Int) : List Char :=
  if n < 0 then Char.ofNat 45 :: natDigits n.natAbs else natDigits n.natAbs

/-- Two-space gap of `JSON.stringify(·, null, 2)`. -/
def gapChars : List Char := [Char.ofNat 32, Char.ofNat 32]

mutual

/-- Model of `JSON.stringify(v, null, 2)` at nesting indentation `indent`:
empty arrays and objects print compactly, nonempty ones put every element
on its own line indented by one further gap. -/
def stringifyVal (indent : List Char) : JVal → List Char
  | .jnull => ['n', 'u', 'l', 'l']
  | .jbool true => ['t', 'r', 'u', 'e']
  | .jbool false => ['f', 'a', 'l', 's', 'e']
  | .jnum n => intChars n
  | .jstr s => renderString s
  | .jarr [] => [Char.ofNat 91, Char.ofNat 93]
  | .jarr (v :: vs) =>
      Char.ofNat 91 :: cNewline :: (indent ++ gapChars) ++
        stringifyVal (indent ++ gapChars) v ++ stringifyItems (indent ++ gapChars) vs ++
        cNewline :: indent ++ [Char.ofNat 93]
  | .jobj [] => [cLBrace, cRBrace]
  | .jobj (f :: fs) =>
      cLBrace :: cNewline :: (indent ++ gapChars) ++
        stringifyField (indent ++ gapChars) f ++ stringifyFields (indent ++ gapChars) fs ++
        cNewline :: indent ++ [cRBrace]

/-- Second and later array elements: comma, line break, indent, element. -/
def stringifyItems (indent : List Char) : List JVal → List Char
  | [] => []
  | v :: vs =>
      Char.ofNat 44 :: cNewline :: indent ++ stringifyVal indent v ++ stringifyItems indent vs

/-- One object field: quoted key, colon, space, value. -/
def stringifyField (indent : List Char) : String × JVal → List Char
  | (k, v) => renderString k ++ Char.ofNat 58 :: Char.ofNat 32 :: stringifyVal indent v

/-- Second and later object fields: comma, line break, indent, field. -/
def stringifyFields (indent : List Char) : List (String × JVal) → List Char
  | [] => []
  | f :: fs =>
      Char.ofNat 44 :: cNewline :: indent ++ stringifyField indent f ++ stringifyFields indent fs

end

/-- The JSON object a note serializes to, with the key insertion order of
the application's note literals: id, title, content, updatedAt. -/
def encodeNote (n : Note) : JVal :=
  .jobj [("id", .jstr n.id), ("title", .jstr n.title), ("content", .jstr n.content),
    ("updatedAt", .jnum n.updatedAt)]

/-- Reading a parsed JSON value back as a note record, accessing the four
fields by name as the application does. -/
def decodeNote (v : JVal) : Option Note :=
  match v with
  | .jobj fs =>
    match fs.lookup "id", fs.lookup "title", fs.lookup "content", fs.lookup "updatedAt" with
    | some (.jstr i), some (.jstr t), some (.jstr c), some (.jnum u) => some ⟨i, t, c, u⟩
    | _, _, _, _ => none
  | _ => none

/-- Reading a list of parsed JSON values back as note records. -/
def decodeNotesList : List JVal → Option (List Note)
  | [] => some []
  | v :: vs =>
    match decodeNote v, decodeNotesList vs with
    | some n, some ns => some (n :: ns)
    | _, _ => none

/-- Reading a parsed JSON document back as a note collection. -/
def decodeNotes : JVal → Option (List Note)
  | .jarr vs => decodeNotesList vs
  | _ => none

/-- The text the `save-notes` handler writes to `notes.json`:
`JSON.stringify(notes, null, 2)`. -/
def saveNotesText (ns : List Note) : String :=
  String.mk (stringifyVal [] (JVal.jarr (ns.map encodeNote)))

/-- The observable state of `notes.json` in the chosen folder. -/
inductive FileState where
  | absent
  | unreadable
  | content (data : String)

/-- The `load-notes` IPC handler: an absent file resolves to the empty
array; an unreadable file or a file that fails to parse rejects. -/
def loadNotesHandler (f : FileState) : Except Unit JVal :=
  match f with
  | .absent => .ok (.jarr [])
  | .unreadable => .error ()
  | .content data =>
    match parseJson data with
    | some v => .ok v
    | none => .error ()

/-- Loading and then viewing the parsed value as a note collection. -/
def loadDecoded (f : FileState) : Option (List Note) :=
  match loadNotesHandler f with
  | .ok v => decodeNotes v
  | .error _ => none

/-! ## Theorems about the edge-dock controller -/

/-- C1: on a tick where the window sits exactly at the hidden-left position
and the cursor is inside the left peek strip within the window's vertical
span, the window is revealed: its new x-origin is the work-area x-origin. -/
theorem c1_reveal_left_on_peek (displays : List Display) (current : Display)
    (cursor : Point) (winBounds : Rect)
    (hnb : hasNeighborLeft displays current = false)
    (hhid : winBounds.x = current.workArea.x - (winBounds.width - PEEK_WIDTH))
    (hcx : cursor.x ≤ current.workArea.x + PEEK_WIDTH)
    (hcy₁ : winBounds.y ≤ cursor.y) (hcy₂ : cursor.y ≤ winBounds.y + winBounds.height) :
    (edgeTick displays current cursor winBounds).x = current.workArea.x := by
  have hh : isHiddenLeft winBounds current.workArea := by
    unfold isHiddenLeft; omega
  have hm : mouseNearLeft cursor winBounds current.workArea := ⟨hcx, hcy₁, hcy₂⟩
  unfold edgeTick
  simp [hh, hm]

/-- Witness for C1 at a concrete configuration: a 1920×1080 display with the
window hidden on the left edge and the cursor inside the peek strip. -/
theorem c1_reveal_left_on_peek_witness :
    (edgeTick [⟨0, ⟨0, 0, 1920, 1080⟩, ⟨0, 0, 1920, 1040⟩⟩]
      ⟨0, ⟨0, 0, 1920, 1080⟩, ⟨0, 0, 1920, 1040⟩⟩ ⟨5, 300⟩ ⟨-380, 100, 400, 600⟩).x = 0 :=
  c1_reveal_left_on_peek _ _ _ _ (by decide) (by decide) (by decide) (by decide) (by decide)

/-- C2 counterexample: a window within the 50px threshold of the work-area's
left edge, fully visible, cursor outside the window — but the display has a
neighboring display on its left edge, so the tick leaves the window in
place instead of hiding it. -/
theorem c2_hide_left_counterexample :
    ((⟨0, 100, 400, 600⟩ : Rect).x - (⟨0, 0, 1920, 1040⟩ : Rect).x).natAbs < 50 ∧
    ¬ isHiddenLeft ⟨0, 100, 400, 600⟩ ⟨0, 0, 1920, 1040⟩ ∧
    ¬ isHiddenRight ⟨0, 100, 400, 600⟩ ⟨0, 0, 1920, 1040⟩ ∧
    ¬ mouseInside ⟨1000, 800⟩ ⟨0, 100, 400, 600⟩ ∧
    (edgeTick
      [⟨0, ⟨0, 0, 1920, 1080⟩, ⟨0, 0, 1920, 1040⟩⟩, ⟨1, ⟨-1920, 0, 1920, 1080⟩, ⟨-1920, 0, 1920, 1040⟩⟩]
      ⟨0, ⟨0, 0, 1920, 1080⟩, ⟨0, 0, 1920, 1040⟩⟩ ⟨1000, 800⟩ ⟨0, 100, 400, 600⟩).x ≠
        (⟨0, 0, 1920, 1040⟩ : Rect).x - (⟨0, 100, 400, 600⟩ : Rect).width + PEEK_WIDTH := by
  decide

/-- C2 (amended): if additionally the display has no neighbor on its left
edge, a visible window within the 50px threshold of the work-area's left
edge is hidden on a tick with the cursor outside the window: the new
x-origin is work-area x minus window width plus the peek width. -/
theorem c2_hide_left (displays : List Display) (current : Display)
    (cursor : Point) (winBounds : Rect)
    (hdock : (winBounds.x - current.workArea.x).natAbs < 50)
    (hnb : hasNeighborLeft displays current = false)
    (hv₁ : ¬ isHiddenLeft winBounds current.workArea)
    (hv₂ : ¬ isHiddenRight winBounds current.workArea)
    (hout : ¬ mouseInside cursor winBounds) :
    (edgeTick displays current cursor winBounds).x =
      current.workArea.x - winBounds.width + PEEK_WIDTH := by
  have hd : isDockedLeft displays current winBounds := ⟨hdock, hnb⟩
  unfold edgeTick
  simp [hv₁, hv₂, hout, hd]

/-- Witness for C2 (amended) at a concrete configuration: a single display,
window docked left and visible, cursor away from the window. -/
theorem c2_hide_left_witness :
    (edgeTick [⟨0, ⟨0, 0, 1920, 1080⟩, ⟨0, 0, 1920, 1040⟩⟩]
      ⟨0, ⟨0, 0, 1920, 1080⟩, ⟨0, 0, 1920, 1040⟩⟩ ⟨1000, 800⟩ ⟨0, 100, 400, 600⟩).x =
      (0 : Int) - 400 + PEEK_WIDTH :=
  c2_hide_left _ _ _ _ (by decide) (by decide) (by decide) (by decide) (by decide)

/-- C3 counterexample: with a neighbor abutting the display's left edge, a
tick can still move the window into the hidden-left classification — here
the work area is narrower than the peek strip, so revealing from the
hidden-right position lands in the hidden-left position. -/
theorem c3_no_hidden_left_counterexample :
    hasNeighborLeft
      [⟨0, ⟨0, 0, 20, 1080⟩, ⟨0, 0, 20, 1080⟩⟩, ⟨1, ⟨-1920, 0, 1920, 1080⟩, ⟨-1920, 0, 1920, 1040⟩⟩]
      ⟨0, ⟨0, 0, 20, 1080⟩, ⟨0, 0, 20, 1080⟩⟩ = true ∧
    ¬ isHiddenLeft ⟨0, 0, 100, 500⟩ ⟨0, 0, 20, 1080⟩ ∧
    isHiddenLeft
      (edgeTick
        [⟨0, ⟨0, 0, 20, 1080⟩, ⟨0, 0, 20, 1080⟩⟩, ⟨1, ⟨-1920, 0, 1920, 1080⟩, ⟨-1920, 0, 1920, 1040⟩⟩]
        ⟨0, ⟨0, 0, 20, 1080⟩, ⟨0, 0, 20, 1080⟩⟩ ⟨10, 10⟩ ⟨0, 0, 100, 500⟩)
      ⟨0, 0, 20, 1080⟩ := by
  decide

/-- C3 (amended): on a display whose work area is wider than the peek strip,
if the display has a neighbor abutting its left edge then a window that is
not hidden-left never transitions to the hidden-left classification in one
tick, regardless of cursor position. -/
theorem c3_no_hidden_left (displays : List Display) (current : Display)
    (cursor : Point) (winBounds : Rect)
    (hnb : hasNeighborLeft displays current = true)
    (hwa : PEEK_WIDTH < current.workArea.width)
    (hstart : ¬ isHiddenLeft winBounds current.workArea) :
    ¬ isHiddenLeft (edgeTick displays current cursor winBounds) current.workArea := by
  unfold edgeTick
  split_ifs with h1 h2 h3 h4 h5
  · simp only [isHiddenLeft, isHiddenRight, PEEK_WIDTH] at hwa hstart h1 ⊢
    omega
  · exact hstart
  · exact hstart
  · exact absurd h4.2 (by simp [hnb])
  · simp only [isHiddenLeft, isHiddenRight, PEEK_WIDTH] at hwa hstart h1 ⊢
    omega
  · exact hstart

/-- Witness for C3 (amended) at a concrete configuration: dual display with
a left neighbor; a visible docked-left window stays out of the hidden-left
classification on a tick. -/
theorem c3_no_hidden_left_witness :
    ¬ isHiddenLeft
      (edgeTick
        [⟨0, ⟨0, 0, 1920, 1080⟩, ⟨0, 0, 1920, 1040⟩⟩, ⟨1, ⟨-1920, 0, 1920, 1080⟩, ⟨-1920, 0, 1920, 1040⟩⟩]
        ⟨0, ⟨0, 0, 1920, 1080⟩, ⟨0, 0, 1920, 1040⟩⟩ ⟨1000, 800⟩ ⟨0, 100, 400, 600⟩)
      ⟨0, 0, 1920, 1040⟩ :=
  c3_no_hidden_left _ _ _ _ (by decide) (by decide) (by decide)

/-- C9: every tick of the edge-dock controller preserves the window's
width, height and y-origin; only the x-origin may change. -/
theorem c9_tick_preserves_frame (displays : List Display) (current : Display)
    (cursor : Point) (winBounds : Rect) :
    (edgeTick displays current cursor winBounds).width = winBounds.width ∧
    (edgeTick displays current cursor winBounds).height = winBounds.height ∧
    (edgeTick displays current cursor winBounds).y = winBounds.y := by
  unfold edgeTick
  split_ifs <;> exact ⟨rfl, rfl, rfl⟩

/-! ## Theorems about the note store -/

/-- The save effect leaves the in-memory notes unchanged. -/
theorem saveEffect_notes (t : AppState) : (saveEffect t).notes = t.notes := by
  unfold saveEffect; split_ifs <;> rfl

/-- Persistence behavior of the save effect relative to a pre-mutation state
`s` whose backends the mutated state `t` still carries. -/
theorem saveEffect_persists (s t : AppState) (hp : t.notesPath = s.notesPath)
    (hl : t.localStored = s.localStored) (hf : t.fileStored = s.fileStored) :
    ((saveEffect t).notes ≠ [] →
      (saveEffect t).localStored = some ((saveEffect t).notes) ∧
      (s.notesPath.isSome = true → (saveEffect t).fileStored = (saveEffect t).notes)) ∧
    ((saveEffect t).notes = [] →
      (saveEffect t).localStored = s.localStored ∧
      (saveEffect t).fileStored = s.fileStored) := by
  unfold saveEffect
  split_ifs with h hsome
  · have hnil : t.notes = [] := List.length_eq_zero.mp h
    exact ⟨fun hne => absurd hnil hne, fun _ => ⟨hl, hf⟩⟩
  · exact ⟨fun _ => ⟨rfl, fun _ => rfl⟩,
      fun he => absurd (List.length_eq_zero.mpr he) h⟩
  · exact ⟨fun _ => ⟨rfl, fun hp' => absurd (hp ▸ hp') hsome⟩,
      fun he => absurd (List.length_eq_zero.mpr he) h⟩

/-- The content-update handler does not touch the persistence fields. -/
theorem handleUpdateNote_backends (c : String) (now : Int) (s : AppState) :
    (handleUpdateNote c now s).notesPath = s.notesPath ∧
    (handleUpdateNote c now s).localStored = s.localStored ∧
    (handleUpdateNote c now s).fileStored = s.fileStored := by
  unfold handleUpdateNote; split_ifs <;> exact ⟨rfl, rfl, rfl⟩

/-- C4 counterexample: deleting the last remaining note empties the
collection, and the save effect then skips the write — browser storage
keeps the stale one-note collection instead of the new empty one. -/
theorem c4_overwrite_counterexample :
    (applyMutation (.delete "a")
      ⟨[⟨"a", "t", "c", 5⟩], some "a", some [⟨"a", "t", "c", 5⟩], some "p", [⟨"a", "t", "c", 5⟩]⟩).notes
      = [] ∧
    (applyMutation (.delete "a")
      ⟨[⟨"a", "t", "c", 5⟩], some "a", some [⟨"a", "t", "c", 5⟩], some "p", [⟨"a", "t", "c", 5⟩]⟩).localStored
      ≠ some [] := by
  decide

/-- C4 (amended): after a mutation that leaves the collection nonempty, the
full collection is overwritten to browser storage and, when a folder path
is configured, to the notes file; a mutation that leaves the collection
empty skips the write and both backends keep their previous contents. -/
theorem c4_full_overwrite (s : AppState) (m : Mutation) :
    ((applyMutation m s).notes ≠ [] →
      (applyMutation m s).localStored = some ((applyMutation m s).notes) ∧
      (s.notesPath.isSome = true →
        (applyMutation m s).fileStored = (applyMutation m s).notes)) ∧
    ((applyMutation m s).notes = [] →
      (applyMutation m s).localStored = s.localStored ∧
      (applyMutation m s).fileStored = s.fileStored) := by
  cases m with
  | create newId now => exact saveEffect_persists s _ rfl rfl rfl
  | delete key => exact saveEffect_persists s _ rfl rfl rfl
  | updateContent content now =>
    have h := handleUpdateNote_backends content now s
    exact saveEffect_persists s _ h.1 h.2.1 h.2.2
  | updateTitle title => exact saveEffect_persists s _ rfl rfl rfl

/-- Witness for C4 (amended): creating a note in an empty state persists
the new one-note collection to browser storage. -/
theorem c4_full_overwrite_witness :
    (applyMutation (.create "b" 7) ⟨[], none, none, none, []⟩).localStored =
      some ((applyMutation (.create "b" 7) ⟨[], none, none, none, []⟩).notes) :=
  ((c4_full_overwrite ⟨[], none, none, none, []⟩ (.create "b" 7)).1 (by decide)).1

/-- C5 counterexample: changing the title of the active note replaces the
title but leaves the last-updated timestamp unchanged — a title mutation
does not set a new timestamp. -/
theorem c5_title_timestamp_counterexample :
    (handleTitleChange "New" ⟨[⟨"a", "t", "c", 5⟩], some "a", none, none, []⟩).notes =
      [⟨"a", "New", "c", 5⟩] := by
  decide

/-- C5 (amended): a content mutation refreshes the timestamp of the mutated
note; a title mutation leaves every note's timestamp unchanged. -/
theorem c5_timestamp_refresh (s : AppState) (c t : String) (now : Int) :
    (∀ i : Nat, ((handleTitleChange t s).notes[i]?).map Note.updatedAt =
      (s.notes[i]?).map Note.updatedAt) ∧
    (∀ i : Nat, ∀ n : Note, s.notes[i]? = some n → some n.id = s.activeNoteId →
      s.activeNoteId ≠ some "" →
      ((handleUpdateNote c now s).notes[i]?).map Note.updatedAt = some now) := by
  constructor
  · intro i
    simp only [handleTitleChange, List.getElem?_map]
    cases h : s.notes[i]? with
    | none => rfl
    | some n =>
      simp only [Option.map_some']
      split_ifs <;> rfl
  · intro i n hn hact hne
    have hcond : ¬ (s.activeNoteId = none ∨ s.activeNoteId = some "") := by
      rintro (h | h)
      · rw [h] at hact; exact Option.noConfusion hact
      · exact hne h
    simp only [handleUpdateNote, if_neg hcond, List.getElem?_map, hn,
      Option.map_some', if_pos hact]

/-- Witness for C5 (amended) at a concrete one-note state: the title change
keeps the timestamp, and a content update stamps the new time. -/
theorem c5_timestamp_refresh_witness :
    ((handleTitleChange "T" ⟨[⟨"a", "t", "c", 5⟩], some "a", none, none, []⟩).notes[0]?).map
        Note.updatedAt =
      ((⟨[⟨"a", "t", "c", 5⟩], some "a", none, none, []⟩ : AppState).notes[0]?).map
        Note.updatedAt ∧
    ((handleUpdateNote "x" 9 ⟨[⟨"a", "t", "c", 5⟩], some "a", none, none, []⟩).notes[0]?).map
        Note.updatedAt = some 9 :=
  ⟨(c5_timestamp_refresh ⟨[⟨"a", "t", "c", 5⟩], some "a", none, none, []⟩ "x" "T" 9).1 0,
    (c5_timestamp_refresh ⟨[⟨"a", "t", "c", 5⟩], some "a", none, none, []⟩ "x" "T" 9).2 0
      ⟨"a", "t", "c", 5⟩ (by decide) (by decide) (by decide)⟩

/-- C6 counterexample: with the empty string as active identifier and a note
carrying the empty identifier, an active note exists (the app's
`notes.find` succeeds), yet a content update is a no-op because the handler
treats the JavaScript-falsy empty string as "no active note". -/
theorem c6_update_counterexample :
    (⟨[⟨"", "t", "c", 5⟩], some "", none, none, []⟩ : AppState).activeNoteId = some "" ∧
    (∃ n ∈ (⟨[⟨"", "t", "c", 5⟩], some "", none, none, []⟩ : AppState).notes,
      some n.id = (⟨[⟨"", "t", "c", 5⟩], some "", none, none, []⟩ : AppState).activeNoteId) ∧
    handleUpdateNote "x" 9 ⟨[⟨"", "t", "c", 5⟩], some "", none, none, []⟩ =
      ⟨[⟨"", "t", "c", 5⟩], some "", none, none, []⟩ := by
  decide

/-- C6 (amended): a content update with no active identifier — none, or the
empty string, which the handler treats as no selection — is a no-op;
otherwise it rewrites exactly the notes matching the active identifier,
setting their content and stamping `now` (which is ≥ the old timestamp
whenever the clock is monotone), and leaves every other note unchanged; a
title change replaces exactly the matching notes' titles and never touches
a timestamp. -/
theorem c6_update_semantics (s : AppState) (c t : String) (now : Int) :
    (s.activeNoteId = none ∨ s.activeNoteId = some "" → handleUpdateNote c now s = s) ∧
    (∀ i : Nat, ∀ n : Note, s.notes[i]? = some n → some n.id ≠ s.activeNoteId →
      (handleUpdateNote c now s).notes[i]? = some n) ∧
    (∀ i : Nat, ∀ n : Note, s.notes[i]? = some n → some n.id = s.activeNoteId →
      s.activeNoteId ≠ some "" →
      (handleUpdateNote c now s).notes[i]? =
        some { n with content := c, updatedAt := now } ∧
      (n.updatedAt ≤ now → ∀ m : Note,
        (handleUpdateNote c now s).notes[i]? = some m → n.updatedAt ≤ m.updatedAt)) ∧
    (∀ i : Nat, ∀ n : Note, s.notes[i]? = some n →
      (handleTitleChange t s).notes[i]? =
        some (if some n.id = s.activeNoteId then { n with title := t } else n)) ∧
    (∀ i : Nat, ((handleTitleChange t s).notes[i]?).map Note.updatedAt =
      (s.notes[i]?).map Note.updatedAt) := by
  refine ⟨?_, ?_, ?_, ?_, ?_⟩
  · intro h
    simp only [handleUpdateNote, if_pos h]
  · intro i n hn hne
    by_cases hcond : s.activeNoteId = none ∨ s.activeNoteId = some ""
    · simp only [handleUpdateNote, if_pos hcond, hn]
    · simp only [handleUpdateNote, if_neg hcond, List.getElem?_map, hn,
        Option.map_some', if_neg hne]
  · intro i n hn hact hne
    have hcond : ¬ (s.activeNoteId = none ∨ s.activeNoteId = some "") := by
      rintro (h | h)
      · rw [h] at hact; exact Option.noConfusion hact
      · exact hne h
    have heq : (handleUpdateNote c now s).notes[i]? =
        some { n with content := c, updatedAt := now } := by
      simp only [handleUpdateNote, if_neg hcond, List.getElem?_map, hn,
        Option.map_some', if_pos hact]
    refine ⟨heq, fun hmono m hm => ?_⟩
    rw [heq] at hm
    cases hm
    exact hmono
  · intro i n hn
    simp only [handleTitleChange, List.getElem?_map, hn, Option.map_some']
  · intro i
    simp only [handleTitleChange, List.getElem?_map]
    cases h : s.notes[i]? with
    | none => rfl
    | some n =>
      simp only [Option.map_some']
      split_ifs <;> rfl

/-- Witness for C6 (amended) at a concrete two-note state: the active note
gets the new content and timestamp, the other note is untouched, and the
title change leaves timestamps alone. -/
theorem c6_update_semantics_witness :
    (handleUpdateNote "x" 9
        ⟨[⟨"a", "ta", "ca", 1⟩, ⟨"b", "tb", "cb", 2⟩], some "a", none, none, []⟩).notes[0]? =
      some ⟨"a", "ta", "x", 9⟩ ∧
    (handleUpdateNote "x" 9
        ⟨[⟨"a", "ta", "ca", 1⟩, ⟨"b", "tb", "cb", 2⟩], some "a", none, none, []⟩).notes[1]? =
      some ⟨"b", "tb", "cb", 2⟩ :=
  ⟨((c6_update_semantics
      ⟨[⟨"a", "ta", "ca", 1⟩, ⟨"b", "tb", "cb", 2⟩], some "a", none, none, []⟩ "x" "T" 9).2.2.1
      0 ⟨"a", "ta", "ca", 1⟩ (by decide) (by decide) (by decide)).1,
    (c6_update_semantics
      ⟨[⟨"a", "ta", "ca", 1⟩, ⟨"b", "tb", "cb", 2⟩], some "a", none, none, []⟩ "x" "T" 9).2.1
      1 ⟨"b", "tb", "cb", 2⟩ (by decide) (by decide)⟩

/-- Under unique identifiers, filtering out one identifier is the same as
erasing its (single) occurrence: the surviving notes keep their order. -/
theorem filter_ne_eq_eraseP (l : List Note) (key : String)
    (h : (l.map Note.id).Nodup) :
    l.filter (fun n => n.id != key) = l.eraseP (fun n => n.id == key) := by
  induction l with
  | nil => rfl
  | cons a l ih =>
    rw [List.map_cons, List.nodup_cons] at h
    by_cases ha : a.id = key
    · have pa : (a.id == key) = true := beq_iff_eq.mpr ha
      have fa : (a.id != key) = false := by simp [bne, pa]
      rw [@List.eraseP_cons_of_pos _ a l (fun n => n.id == key) pa]
      simp only [List.filter_cons, fa, Bool.false_eq_true, if_false]
      apply List.filter_eq_self.mpr
      intro n hn
      have : n.id ≠ key := by
        intro hk
        exact h.1 (ha ▸ hk ▸ List.mem_map_of_mem Note.id hn)
      simpa [bne] using this
    · have pa : (a.id == key) = false := beq_eq_false_iff_ne.mpr ha
      have fa : (a.id != key) = true := by simp [bne, pa]
      rw [@List.eraseP_cons_of_neg _ a l (fun n => n.id == key) (by simp [pa])]
      simp only [List.filter_cons, fa, if_true]
      rw [ih h.2]

/-- C7: under the identifier-uniqueness invariant, deleting an identifier
removes exactly the note carrying it while preserving the order of the
remaining notes; if the deleted note was active, the selection falls back
to the first remaining note (or to none for an emptied collection), and an
inactive deletion leaves the selection alone. -/
theorem c7_delete_note (s : AppState) (key : String)
    (h : (s.notes.map Note.id).Nodup) :
    (handleDeleteNote key s).notes = s.notes.eraseP (fun n => n.id == key) ∧
    (∀ n ∈ (handleDeleteNote key s).notes, n.id ≠ key) ∧
    (s.activeNoteId = some key →
      (handleDeleteNote key s).activeNoteId =
        ((handleDeleteNote key s).notes.head?).map Note.id) ∧
    (s.activeNoteId ≠ some key →
      (handleDeleteNote key s).activeNoteId = s.activeNoteId) := by
  refine ⟨filter_ne_eq_eraseP s.notes key h, ?_, ?_, ?_⟩
  · intro n hn
    have := List.of_mem_filter hn
    simpa [bne] using this
  · intro hact
    simp only [handleDeleteNote, if_pos hact]
  · intro hact
    simp only [handleDeleteNote, if_neg hact]

/-- Witness for C7 at a concrete two-note state: deleting the active first
note keeps only the second, which becomes active. -/
theorem c7_delete_note_witness :
    (handleDeleteNote "a"
        ⟨[⟨"a", "ta", "ca", 1⟩, ⟨"b", "tb", "cb", 2⟩], some "a", none, none, []⟩).notes =
      [⟨"b", "tb", "cb", 2⟩] ∧
    (handleDeleteNote "a"
        ⟨[⟨"a", "ta", "ca", 1⟩, ⟨"b", "tb", "cb", 2⟩], some "a", none, none, []⟩).activeNoteId =
      some "b" := by
  have h := c7_delete_note
    ⟨[⟨"a", "ta", "ca", 1⟩, ⟨"b", "tb", "cb", 2⟩], some "a", none, none, []⟩ "a" (by decide)
  refine ⟨h.1.trans (by decide), (h.2.2.1 (by decide)).trans ?_⟩
  rw [h.1]
  decide

/-! ## Round-trip of the JSON serialization -/

/-- Whitespace skipping stops at a non-whitespace character. -/
theorem skipWs_not_ws (c : Char) (cs : List Char) (h : isWs c = false) :
    skipWs (c :: cs) = c :: cs := by
  simp [skipWs, List.dropWhile_cons, h]

/-- Whitespace skipping consumes a whitespace character. -/
theorem skipWs_ws (c : Char) (cs : List Char) (h : isWs c = true) :
    skipWs (c :: cs) = skipWs cs := by
  simp [skipWs, List.dropWhile_cons, h]

/-- Whitespace skipping consumes a whitespace prefix. -/
theorem skipWs_ws_append (pre cs : List Char) (h : ∀ c ∈ pre, isWs c = true) :
    skipWs (pre ++ cs) = skipWs cs := by
  induction pre with
  | nil => rfl
  | cons a l ih =>
    rw [List.cons_append, skipWs_ws a _ (h a (by simp))]
    exact ih fun c hc => h c (by simp [hc])

/-- A string is its own character list repackaged. -/
theorem stringMk_data : ∀ s : String, String.mk s.data = s
  | ⟨_⟩ => rfl

/-- Reading back a hexadecimal digit recovers its value. -/
theorem hexVal_hexDigitChar (m : Nat) (h : m < 16) : hexVal (hexDigitChar m) = some m := by
  interval_cases m <;> decide

/-- Parsing the escape of one character pushes exactly that character. -/
theorem parseStringBody_escC (c : Char) (rest acc : List Char) :
    parseStringBody (escC c ++ rest) acc = parseStringBody rest (c :: acc) := by
  unfold escC
  split_ifs with h1 h2 h3 h4 h5 h6 h7 h8
  · subst h1
    show parseStringBody (cBackslash :: cQuote :: rest) acc = _
    rw [parseStringBody.eq_def]; simp +decide
  · subst h2
    show parseStringBody (cBackslash :: cBackslash :: rest) acc = _
    rw [parseStringBody.eq_def]; simp +decide
  · have hc : c = Char.ofNat 8 := by rw [← Char.ofNat_toNat c, h3]
    subst hc
    show parseStringBody (cBackslash :: 'b' :: rest) acc = _
    rw [parseStringBody.eq_def]; simp +decide
  · have hc : c = Char.ofNat 9 := by rw [← Char.ofNat_toNat c, h4]
    subst hc
    show parseStringBody (cBackslash :: 't' :: rest) acc = _
    rw [parseStringBody.eq_def]; simp +decide
  · have hc : c = Char.ofNat 10 := by rw [← Char.ofNat_toNat c, h5]
    subst hc
    show parseStringBody (cBackslash :: 'n' :: rest) acc = _
    rw [parseStringBody.eq_def]; simp +decide
  · have hc : c = Char.ofNat 12 := by rw [← Char.ofNat_toNat c, h6]
    subst hc
    show parseStringBody (cBackslash :: 'f' :: rest) acc = _
    rw [parseStringBody.eq_def]; simp +decide
  · have hc : c = Char.ofNat 13 := by rw [← Char.ofNat_toNat c, h7]
    subst hc
    show parseStringBody (cBackslash :: 'r' :: rest) acc = _
    rw [parseStringBody.eq_def]; simp +decide
  · show parseStringBody (cBackslash :: 'u' :: Char.ofNat 48 :: Char.ofNat 48 ::
        hexDigitChar (c.toNat / 16) :: hexDigitChar (c.toNat % 16) :: rest) acc = _
    rw [parseStringBody.eq_def]
    simp only [hexVal_hexDigitChar (c.toNat / 16) (by omega),
      hexVal_hexDigitChar (c.toNat % 16) (by omega),
      show hexVal (Char.ofNat 48) = some 0 from rfl]
    simp +decide
    refine congrArg (parseStringBody rest) ?_
    refine congrArg (fun z => z :: acc) ?_
    conv_rhs => rw [← Char.ofNat_toNat c]
    congr 1
    omega
  · show parseStringBody (c :: rest) acc = _
    have hlt : ¬ c.toNat < 32 := h8
    rw [parseStringBody.eq_def]
    simp [h1, h2, hlt]

/-- Parsing an escaped string body up to the closing quote recovers the
original characters. -/
theorem parseStringBody_escList (cs rest acc : List Char) :
    parseStringBody (escList cs ++ cQuote :: rest) acc =
      some (String.mk (acc.reverse ++ cs), rest) := by
  induction cs generalizing acc with
  | nil =>
    show parseStringBody (cQuote :: rest) acc = _
    rw [parseStringBody.eq_def]
    simp +decide
  | cons c cs ih =>
    have hsplit : escList (c :: cs) = escC c ++ escList cs := by
      simp [escList]
    rw [hsplit, List.append_assoc, parseStringBody_escC, ih]
    simp

/-- A digit character is classified as a digit. -/
theorem isDigitC_digitChar (k : Nat) (hk : k < 10) : isDigitC (digitChar k) = true := by
  interval_cases k <;> decide

/-- Reading back a digit character recovers its value. -/
theorem digitVal_digitChar (k : Nat) (hk : k < 10) : digitVal (digitChar k) = k := by
  interval_cases k <;> decide

/-- Every character of a decimal rendering is a digit. -/
theorem natDigits_digits (n : Nat) : ∀ c ∈ natDigits n, isDigitC c = true := by
  induction n using Nat.strong_induction_on with
  | _ n ih =>
    rw [natDigits]
    split_ifs with h
    · intro c hc
      rw [List.mem_singleton] at hc
      subst hc
      exact isDigitC_digitChar n h
    · intro c hc
      rw [List.mem_append] at hc
      rcases hc with hc | hc
      · exact ih (n / 10) (by omega) c hc
      · rw [List.mem_singleton] at hc
        subst hc
        exact isDigitC_digitChar (n % 10) (by omega)

/-- A decimal rendering is nonempty and starts with a digit. -/
theorem natDigits_cons (n : Nat) :
    ∃ d ds, natDigits n = d :: ds ∧ isDigitC d = true := by
  induction n using Nat.strong_induction_on with
  | _ n ih =>
    rw [natDigits]
    split_ifs with h
    · exact ⟨digitChar n, [], rfl, isDigitC_digitChar n h⟩
    · obtain ⟨d, ds, hd, hdig⟩ := ih (n / 10) (by omega)
      exact ⟨d, ds ++ [digitChar (n % 10)], by rw [hd]; rfl, hdig⟩

/-- Consuming a digit run stops exactly at the first non-digit. -/
theorem parseDigitsAux_all (ds : List Char) (h : ∀ c ∈ ds, isDigitC c = true)
    (rest : List Char) (hr : ∀ c, rest.head? = some c → isDigitC c = false) :
    ∀ acc : Nat, parseDigitsAux (ds ++ rest) acc =
      (ds.foldl (fun a c => a * 10 + digitVal c) acc, rest) := by
  induction ds with
  | nil =>
    intro acc
    cases rest with
    | nil => rfl
    | cons c r =>
      show parseDigitsAux (c :: r) acc = _
      rw [parseDigitsAux.eq_def]
      simp [hr c rfl]
  | cons d ds ih =>
    intro acc
    rw [List.cons_append, parseDigitsAux.eq_def]
    simp only [h d (List.mem_cons_self d ds), if_true, List.foldl_cons]
    exact ih (fun c hc => h c (List.mem_cons_of_mem d hc)) (acc * 10 + digitVal d)

/-- Folding the digit-accumulation over a decimal rendering recovers the
number (shifted under the accumulator). -/
theorem foldl_natDigits (n : Nat) : ∀ acc : Nat,
    (natDigits n).foldl (fun a c => a * 10 + digitVal c) acc =
      acc * 10 ^ (natDigits n).length + n := by
  induction n using Nat.strong_induction_on with
  | _ n ih =>
    intro acc
    rw [natDigits]
    split_ifs with h
    · rw [List.foldl_cons, List.foldl_nil, digitVal_digitChar n h]
      simp
    · rw [List.foldl_append, List.foldl_cons, List.foldl_nil, ih (n / 10) (by omega) acc,
        digitVal_digitChar (n % 10) (by omega), List.length_append]
      simp only [List.length_cons, List.length_nil]
      rw [pow_succ, ← mul_assoc]
      omega

/-- Parsing the decimal rendering of an integer recovers it, provided the
remaining input does not extend the digit run or continue the number. -/
theorem parseNum_intChars (m : Int) (rest : List Char)
    (hr1 : ∀ c, rest.head? = some c → isDigitC c = false)
    (hr2 : numContinues rest = false) :
    parseNum (intChars m ++ rest) = some (m, rest) := by
  have hdig := natDigits_digits m.natAbs
  obtain ⟨d, ds, hd, hddig⟩ := natDigits_cons m.natAbs
  have hd48 : 48 ≤ d.toNat ∧ d.toNat ≤ 57 := by
    have := hddig
    simp [isDigitC] at this
    exact this
  have hparse : parseDigitsAux (natDigits m.natAbs ++ rest) 0 = (m.natAbs, rest) := by
    rw [parseDigitsAux_all (natDigits m.natAbs) hdig rest hr1 0, foldl_natDigits]
    simp
  unfold intChars
  split_ifs with hneg
  · show parseNum (Char.ofNat 45 :: (natDigits m.natAbs ++ rest)) = _
    rw [parseNum.eq_def, hd, List.cons_append]
    simp only [if_pos rfl, hddig, if_true]
    rw [← List.cons_append, ← hd, hparse]
    simp only [hr2, Bool.false_eq_true, if_false]
    have hm : -((m.natAbs : Int)) = m := by omega
    rw [hm]
  · have hdne : d ≠ Char.ofNat 45 := by
      intro he
      have := congrArg Char.toNat he
      rw [show (Char.ofNat 45).toNat = 45 from rfl] at this
      omega
    rw [hd, List.cons_append, parseNum.eq_def]
    simp only [if_neg hdne, hddig, if_true]
    rw [← List.cons_append, ← hd, hparse]
    simp only [hr2, Bool.false_eq_true, if_false]
    have hm : ((m.natAbs : Int)) = m := by omega
    rw [hm]

/-- A parse step on a rendered string, after insignificant whitespace. -/
theorem parseVal_str (fuel : Nat) (pre : List Char) (hpre : ∀ c ∈ pre, isWs c = true)
    (s : String) (rest : List Char) :
    parseVal (fuel + 1) (pre ++ (renderString s ++ rest)) = some (.jstr s, rest) := by
  rw [parseVal.eq_def]
  dsimp only
  have hskip : skipWs (pre ++ (renderString s ++ rest)) =
      cQuote :: (escList s.data ++ (cQuote :: rest)) := by
    rw [skipWs_ws_append pre _ hpre]
    show skipWs (cQuote :: (escList s.data ++ [cQuote] ++ rest)) = _
    rw [skipWs_not_ws _ _ (by decide)]
    simp [List.append_assoc]
  rw [hskip]
  simp [parseStringBody_escList, stringMk_data]

/-- The first character of a rendered integer: a minus sign or a digit;
in particular no whitespace and no other value opener. -/
theorem intChars_head (m : Int) :
    ∃ c0 cs0, intChars m = c0 :: cs0 ∧ isWs c0 = false ∧ c0 ≠ cQuote ∧
      c0 ≠ Char.ofNat 91 ∧ c0 ≠ cLBrace ∧ c0 ≠ 't' ∧ c0 ≠ 'f' ∧ c0 ≠ 'n' := by
  unfold intChars
  split_ifs with hneg
  · exact ⟨Char.ofNat 45, natDigits m.natAbs, rfl, by decide, by decide, by decide,
      by decide, by decide, by decide, by decide⟩
  · obtain ⟨d, ds, hd, hdig⟩ := natDigits_cons m.natAbs
    have hd48 : 48 ≤ d.toNat ∧ d.toNat ≤ 57 := by
      simp [isDigitC] at hdig
      exact hdig
    have htoNat : ∀ k : Nat, d.toNat ≠ k → d ≠ Char.ofNat k ∨ True := fun _ _ => .inr trivial
    refine ⟨d, ds, hd, ?_, ?_, ?_, ?_, ?_, ?_, ?_⟩
    · simp [isWs]
      omega
    · intro he
      have := congrArg Char.toNat he
      rw [show (cQuote).toNat = 34 from rfl] at this
      omega
    · intro he
      have := congrArg Char.toNat he
      rw [show (Char.ofNat 91).toNat = 91 from rfl] at this
      omega
    · intro he
      have := congrArg Char.toNat he
      rw [show (cLBrace).toNat = 123 from rfl] at this
      omega
    · intro he
      have := congrArg Char.toNat he
      rw [show ('t').toNat = 116 from rfl] at this
      omega
    · intro he
      have := congrArg Char.toNat he
      rw [show ('f').toNat = 102 from rfl] at this
      omega
    · intro he
      have := congrArg Char.toNat he
      rw [show ('n').toNat = 110 from rfl] at this
      omega

/-- A parse step on a rendered integer, after insignificant whitespace. -/
theorem parseVal_num (fuel : Nat) (pre : List Char) (hpre : ∀ c ∈ pre, isWs c = true)
    (m : Int) (rest : List Char)
    (hr1 : ∀ c, rest.head? = some c → isDigitC c = false)
    (hr2 : numContinues rest = false) :
    parseVal (fuel + 1) (pre ++ (intChars m ++ rest)) = some (.jnum m, rest) := by
  obtain ⟨c0, cs0, hic, hws, hq, hbr, hbc, ht, hf2, hn⟩ := intChars_head m
  rw [parseVal.eq_def]
  dsimp only
  have hskip : skipWs (pre ++ (intChars m ++ rest)) = c0 :: (cs0 ++ rest) := by
    rw [skipWs_ws_append pre _ hpre, hic, List.cons_append, skipWs_not_ws _ _ hws]
  rw [hskip]
  simp only [if_neg hq, if_neg hbr, if_neg hbc, if_neg ht, if_neg hf2, if_neg hn]
  rw [← List.cons_append, ← hic, parseNum_intChars m rest hr1 hr2]

/-- One string-valued field of an object, followed by a comma: parsing
consumes the field and hands the rest to the remaining-fields parser. -/
theorem parseFields_str_more (g : Nat) (pre : List Char)
    (hpre : ∀ c ∈ pre, isWs c = true) (k v : String) (tail : List Char) :
    parseFields (g + 2) (pre ++ (renderString k ++
        (Char.ofNat 58 :: Char.ofNat 32 :: (renderString v ++ (Char.ofNat 44 :: tail))))) =
      (match parseFields (g + 1) tail with
        | some (fs, r) => some ((k, JVal.jstr v) :: fs, r)
        | none => none) := by
  rw [parseFields.eq_def]
  dsimp only
  have hskip : skipWs (pre ++ (renderString k ++
      (Char.ofNat 58 :: Char.ofNat 32 :: (renderString v ++ (Char.ofNat 44 :: tail))))) =
      cQuote :: (escList k.data ++ (cQuote ::
        (Char.ofNat 58 :: Char.ofNat 32 :: (renderString v ++ (Char.ofNat 44 :: tail))))) := by
    rw [skipWs_ws_append pre _ hpre]
    show skipWs (cQuote :: (escList k.data ++ [cQuote] ++ _)) = _
    rw [skipWs_not_ws _ _ (by decide)]
    simp [List.append_assoc]
  rw [hskip]
  simp only [if_pos rfl, parseStringBody_escList]
  rw [skipWs_not_ws _ _ (by decide)]
  simp only [if_pos rfl]
  have hval : parseVal (g + 1) (Char.ofNat 32 :: (renderString v ++ (Char.ofNat 44 :: tail))) =
      some (.jstr v, Char.ofNat 44 :: tail) := by
    have := parseVal_str g [Char.ofNat 32] (by intro c hc; fin_cases hc <;> decide) v
      (Char.ofNat 44 :: tail)
    simpa using this
  rw [hval]
  dsimp only
  rw [skipWs_not_ws _ _ (by decide)]
  simp [stringMk_data]

/-- The final, integer-valued field of an object: parsing consumes the
field, the line break, the closing indentation and the closing bracket. -/
theorem parseFields_num_last (g : Nat) (pre : List Char)
    (hpre : ∀ c ∈ pre, isWs c = true) (k : String) (m : Int) (ind : List Char)
    (hind : ∀ c ∈ ind, isWs c = true) (rest : List Char) :
    parseFields (g + 2) (pre ++ (renderString k ++
        (Char.ofNat 58 :: Char.ofNat 32 :: (intChars m ++
          (cNewline :: (ind ++ (cRBrace :: rest))))))) =
      some ([(k, JVal.jnum m)], rest) := by
  rw [parseFields.eq_def]
  dsimp only
  have hskip : skipWs (pre ++ (renderString k ++
      (Char.ofNat 58 :: Char.ofNat 32 :: (intChars m ++
        (cNewline :: (ind ++ (cRBrace :: rest))))))) =
      cQuote :: (escList k.data ++ (cQuote ::
        (Char.ofNat 58 :: Char.ofNat 32 :: (intChars m ++
          (cNewline :: (ind ++ (cRBrace :: rest))))))) := by
    rw [skipWs_ws_append pre _ hpre]
    show skipWs (cQuote :: (escList k.data ++ [cQuote] ++ _)) = _
    rw [skipWs_not_ws _ _ (by decide)]
    simp [List.append_assoc]
  rw [hskip]
  simp only [if_pos rfl, parseStringBody_escList]
  rw [skipWs_not_ws _ _ (by decide)]
  simp only [if_pos rfl]
  have hval : parseVal (g + 1) (Char.ofNat 32 :: (intChars m ++
      (cNewline :: (ind ++ (cRBrace :: rest))))) =
      some (.jnum m, cNewline :: (ind ++ (cRBrace :: rest))) := by
    have := parseVal_num g [Char.ofNat 32] (by intro c hc; fin_cases hc <;> decide) m
      (cNewline :: (ind ++ (cRBrace :: rest)))
      (by intro c hc; simp at hc; subst hc; decide)
      (by rw [numContinues.eq_def]; simp +decide)
    simpa using this
  rw [hval]
  dsimp only
  have hskip2 : skipWs (cNewline :: (ind ++ (cRBrace :: rest))) = cRBrace :: rest := by
    rw [skipWs_ws _ _ (by decide), skipWs_ws_append ind _ hind,
      skipWs_not_ws _ _ (by decide)]
  rw [hskip2]
  simp +decide [stringMk_data]

/-- Parsing the pretty-printed serialization of one note object yields
exactly its four-field JSON object. -/
theorem parseVal_noteObj (g : Nat) (pre : List Char)
    (hpre : ∀ c ∈ pre, isWs c = true) (ind : List Char)
    (hind : ∀ c ∈ ind, isWs c = true) (n : Note) (rest : List Char) :
    parseVal (g + 6) (pre ++ (stringifyVal ind (encodeNote n) ++ rest)) =
      some (encodeNote n, rest) := by
  have hig : ∀ c ∈ ind ++ gapChars, isWs c = true := by
    intro c hc
    rw [List.mem_append] at hc
    rcases hc with hc | hc
    · exact hind c hc
    · fin_cases hc <;> decide
  have hig2 : ∀ c ∈ cNewline :: (ind ++ gapChars), isWs c = true := by
    intro c hc
    rcases List.mem_cons.mp hc with hc | hc
    · subst hc; decide
    · exact hig c hc
  have h4 : parseFields (g + 2) ((cNewline :: (ind ++ gapChars)) ++ (renderString "updatedAt" ++ (Char.ofNat 58 :: Char.ofNat 32 :: (intChars n.updatedAt ++ (cNewline :: (ind ++ (cRBrace :: rest))))))) =
      some ([("updatedAt", JVal.jnum n.updatedAt)], rest) :=
    parseFields_num_last g _ hig2 "updatedAt" n.updatedAt ind hind rest
  have h3 : parseFields (g + 3) ((cNewline :: (ind ++ gapChars)) ++ (renderString "content" ++ (Char.ofNat 58 :: Char.ofNat 32 :: (renderString n.content ++ (Char.ofNat 44 :: ((cNewline :: (ind ++ gapChars)) ++ (renderString "updatedAt" ++ (Char.ofNat 58 :: Char.ofNat 32 :: (intChars n.updatedAt ++ (cNewline :: (ind ++ (cRBrace :: rest)))))))))))) =
      some ([("content", JVal.jstr n.content), ("updatedAt", JVal.jnum n.updatedAt)], rest) := by
    have hstep : parseFields (g + 3) ((cNewline :: (ind ++ gapChars)) ++ (renderString "content" ++ (Char.ofNat 58 :: Char.ofNat 32 :: (renderString n.content ++ (Char.ofNat 44 :: ((cNewline :: (ind ++ gapChars)) ++ (renderString "updatedAt" ++ (Char.ofNat 58 :: Char.ofNat 32 :: (intChars n.updatedAt ++ (cNewline :: (ind ++ (cRBrace :: rest)))))))))))) =
        (match parseFields (g + 2) ((cNewline :: (ind ++ gapChars)) ++ (renderString "updatedAt" ++ (Char.ofNat 58 :: Char.ofNat 32 :: (intChars n.updatedAt ++ (cNewline :: (ind ++ (cRBrace :: rest))))))) with
          | some (fs, r) => some (("content", JVal.jstr n.content) :: fs, r)
          | none => none) :=
      parseFields_str_more (g + 1) _ hig2 "content" n.content _
    rw [hstep, h4]
  have h2 : parseFields (g + 4) ((cNewline :: (ind ++ gapChars)) ++ (renderString "title" ++ (Char.ofNat 58 :: Char.ofNat 32 :: (renderString n.title ++ (Char.ofNat 44 :: ((cNewline :: (ind ++ gapChars)) ++ (renderString "content" ++ (Char.ofNat 58 :: Char.ofNat 32 :: (renderString n.content ++ (Char.ofNat 44 :: ((cNewline :: (ind ++ gapChars)) ++ (renderString "updatedAt" ++ (Char.ofNat 58 :: Char.ofNat 32 :: (intChars n.updatedAt ++ (cNewline :: (ind ++ (cRBrace :: rest))))))))))))))))) =
      some ([("title", JVal.jstr n.title), ("content", JVal.jstr n.content), ("updatedAt", JVal.jnum n.updatedAt)], rest) := by
    have hstep : parseFields (g + 4) ((cNewline :: (ind ++ gapChars)) ++ (renderString "title" ++ (Char.ofNat 58 :: Char.ofNat 32 :: (renderString n.title ++ (Char.ofNat 44 :: ((cNewline :: (ind ++ gapChars)) ++ (renderString "content" ++ (Char.ofNat 58 :: Char.ofNat 32 :: (renderString n.content ++ (Char.ofNat 44 :: ((cNewline :: (ind ++ gapChars)) ++ (renderString "updatedAt" ++ (Char.ofNat 58 :: Char.ofNat 32 :: (intChars n.updatedAt ++ (cNewline :: (ind ++ (cRBrace :: rest))))))))))))))))) =
        (match parseFields (g + 3) ((cNewline :: (ind ++ gapChars)) ++ (renderString "content" ++ (Char.ofNat 58 :: Char.ofNat 32 :: (renderString n.content ++ (Char.ofNat 44 :: ((cNewline :: (ind ++ gapChars)) ++ (renderString "updatedAt" ++ (Char.ofNat 58 :: Char.ofNat 32 :: (intChars n.updatedAt ++ (cNewline :: (ind ++ (cRBrace :: rest)))))))))))) with
          | some (fs, r) => some (("title", JVal.jstr n.title) :: fs, r)
          | none => none) :=
      parseFields_str_more (g + 2) _ hig2 "title" n.title _
    rw [hstep, h3]
  have h1 : parseFields (g + 5) (renderString "id" ++ (Char.ofNat 58 :: Char.ofNat 32 :: (renderString n.id ++ (Char.ofNat 44 :: ((cNewline :: (ind ++ gapChars)) ++ (renderString "title" ++ (Char.ofNat 58 :: Char.ofNat 32 :: (renderString n.title ++ (Char.ofNat 44 :: ((cNewline :: (ind ++ gapChars)) ++ (renderString "content" ++ (Char.ofNat 58 :: Char.ofNat 32 :: (renderString n.content ++ (Char.ofNat 44 :: ((cNewline :: (ind ++ gapChars)) ++ (renderString "updatedAt" ++ (Char.ofNat 58 :: Char.ofNat 32 :: (intChars n.updatedAt ++ (cNewline :: (ind ++ (cRBrace :: rest))))))))))))))))))))) =
      some ([("id", JVal.jstr n.id), ("title", JVal.jstr n.title), ("content", JVal.jstr n.content), ("updatedAt", JVal.jnum n.updatedAt)], rest) := by
    have hstep : parseFields (g + 5) ([] ++ (renderString "id" ++ (Char.ofNat 58 :: Char.ofNat 32 :: (renderString n.id ++ (Char.ofNat 44 :: ((cNewline :: (ind ++ gapChars)) ++ (renderString "title" ++ (Char.ofNat 58 :: Char.ofNat 32 :: (renderString n.title ++ (Char.ofNat 44 :: ((cNewline :: (ind ++ gapChars)) ++ (renderString "content" ++ (Char.ofNat 58 :: Char.ofNat 32 :: (renderString n.content ++ (Char.ofNat 44 :: ((cNewline :: (ind ++ gapChars)) ++ (renderString "updatedAt" ++ (Char.ofNat 58 :: Char.ofNat 32 :: (intChars n.updatedAt ++ (cNewline :: (ind ++ (cRBrace :: rest)))))))))))))))))))))) =
        (match parseFields (g + 4) ((cNewline :: (ind ++ gapChars)) ++ (renderString "title" ++ (Char.ofNat 58 :: Char.ofNat 32 :: (renderString n.title ++ (Char.ofNat 44 :: ((cNewline :: (ind ++ gapChars)) ++ (renderString "content" ++ (Char.ofNat 58 :: Char.ofNat 32 :: (renderString n.content ++ (Char.ofNat 44 :: ((cNewline :: (ind ++ gapChars)) ++ (renderString "updatedAt" ++ (Char.ofNat 58 :: Char.ofNat 32 :: (intChars n.updatedAt ++ (cNewline :: (ind ++ (cRBrace :: rest))))))))))))))))) with
          | some (fs, r) => some (("id", JVal.jstr n.id) :: fs, r)
          | none => none) :=
      parseFields_str_more (g + 3) [] (by intro c hc; cases hc) "id" n.id _
    rw [List.nil_append] at hstep
    rw [hstep, h2]
  have hexp : stringifyVal ind (encodeNote n) ++ rest =
      cLBrace :: (cNewline :: ((ind ++ gapChars) ++ (renderString "id" ++ (Char.ofNat 58 :: Char.ofNat 32 :: (renderString n.id ++ (Char.ofNat 44 :: ((cNewline :: (ind ++ gapChars)) ++ (renderString "title" ++ (Char.ofNat 58 :: Char.ofNat 32 :: (renderString n.title ++ (Char.ofNat 44 :: ((cNewline :: (ind ++ gapChars)) ++ (renderString "content" ++ (Char.ofNat 58 :: Char.ofNat 32 :: (renderString n.content ++ (Char.ofNat 44 :: ((cNewline :: (ind ++ gapChars)) ++ (renderString "updatedAt" ++ (Char.ofNat 58 :: Char.ofNat 32 :: (intChars n.updatedAt ++ (cNewline :: (ind ++ (cRBrace :: rest))))))))))))))))))))))) := by
    simp only [encodeNote, stringifyVal, stringifyField, stringifyFields]
    simp [List.append_assoc]
  have hsk1 : skipWs (cNewline :: ((ind ++ gapChars) ++ (renderString "id" ++ (Char.ofNat 58 :: Char.ofNat 32 :: (renderString n.id ++ (Char.ofNat 44 :: ((cNewline :: (ind ++ gapChars)) ++ (renderString "title" ++ (Char.ofNat 58 :: Char.ofNat 32 :: (renderString n.title ++ (Char.ofNat 44 :: ((cNewline :: (ind ++ gapChars)) ++ (renderString "content" ++ (Char.ofNat 58 :: Char.ofNat 32 :: (renderString n.content ++ (Char.ofNat 44 :: ((cNewline :: (ind ++ gapChars)) ++ (renderString "updatedAt" ++ (Char.ofNat 58 :: Char.ofNat 32 :: (intChars n.updatedAt ++ (cNewline :: (ind ++ (cRBrace :: rest))))))))))))))))))))))) =
      cQuote :: ((escList "id".data ++ [cQuote]) ++ (Char.ofNat 58 :: Char.ofNat 32 :: (renderString n.id ++ (Char.ofNat 44 :: ((cNewline :: (ind ++ gapChars)) ++ (renderString "title" ++ (Char.ofNat 58 :: Char.ofNat 32 :: (renderString n.title ++ (Char.ofNat 44 :: ((cNewline :: (ind ++ gapChars)) ++ (renderString "content" ++ (Char.ofNat 58 :: Char.ofNat 32 :: (renderString n.content ++ (Char.ofNat 44 :: ((cNewline :: (ind ++ gapChars)) ++ (renderString "updatedAt" ++ (Char.ofNat 58 :: Char.ofNat 32 :: (intChars n.updatedAt ++ (cNewline :: (ind ++ (cRBrace :: rest))))))))))))))))))))) := by
    rw [skipWs_ws _ _ (by decide), skipWs_ws_append _ _ hig]
    show skipWs (cQuote :: _) = _
    rw [skipWs_not_ws _ _ (by decide)]
    simp [List.append_assoc]
  rw [hexp, parseVal.eq_def]
  dsimp only
  rw [skipWs_ws_append _ _ hpre, skipWs_not_ws _ _ (by decide)]
  simp only [if_neg (by decide : ¬ cLBrace = cQuote),
    if_neg (by decide : ¬ cLBrace = Char.ofNat 91), if_pos rfl]
  rw [hsk1]
  simp only [if_neg (by decide : ¬ cQuote = cRBrace)]
  rw [show (cQuote :: ((escList "id".data ++ [cQuote]) ++ (Char.ofNat 58 :: Char.ofNat 32 :: (renderString n.id ++ (Char.ofNat 44 :: ((cNewline :: (ind ++ gapChars)) ++ (renderString "title" ++ (Char.ofNat 58 :: Char.ofNat 32 :: (renderString n.title ++ (Char.ofNat 44 :: ((cNewline :: (ind ++ gapChars)) ++ (renderString "content" ++ (Char.ofNat 58 :: Char.ofNat 32 :: (renderString n.content ++ (Char.ofNat 44 :: ((cNewline :: (ind ++ gapChars)) ++ (renderString "updatedAt" ++ (Char.ofNat 58 :: Char.ofNat 32 :: (intChars n.updatedAt ++ (cNewline :: (ind ++ (cRBrace :: rest))))))))))))))))))))) : List Char) =
      (renderString "id" ++ (Char.ofNat 58 :: Char.ofNat 32 :: (renderString n.id ++ (Char.ofNat 44 :: ((cNewline :: (ind ++ gapChars)) ++ (renderString "title" ++ (Char.ofNat 58 :: Char.ofNat 32 :: (renderString n.title ++ (Char.ofNat 44 :: ((cNewline :: (ind ++ gapChars)) ++ (renderString "content" ++ (Char.ofNat 58 :: Char.ofNat 32 :: (renderString n.content ++ (Char.ofNat 44 :: ((cNewline :: (ind ++ gapChars)) ++ (renderString "updatedAt" ++ (Char.ofNat 58 :: Char.ofNat 32 :: (intChars n.updatedAt ++ (cNewline :: (ind ++ (cRBrace :: rest))))))))))))))))))))) from by simp [renderString, List.append_assoc]]
  rw [h1]
  simp [encodeNote]


/-- One unfolding step of the array-elements parser. -/
theorem parseElems_succ (fuel : Nat) (cs : List Char) :
    parseElems (fuel + 1) cs =
      (match parseVal fuel cs with
        | none => none
        | some (v, r) =>
          match skipWs r with
          | c :: rest =>
            if c = Char.ofNat 44 then
              match parseElems fuel rest with
              | some (vs, r2) => some (v :: vs, r2)
              | none => none
            else if c = Char.ofNat 93 then some ([v], rest)
            else none
          | [] => none) := by
  rw [parseElems.eq_def]

/-- Parsing the elements of a serialized nonempty note array: the head
object, then every further object after its comma and line break, up to
the closing bracket. -/
theorem parseElems_notes (ns : List Note) : ∀ (f : Nat) (pre : List Char),
    (∀ c ∈ pre, isWs c = true) → ∀ (v : Note) (ind0 ind : List Char),
    (∀ c ∈ ind, isWs c = true) → (∀ c ∈ ind0, isWs c = true) → ∀ rest : List Char,
    parseElems (f + (7 * ns.length + 7))
      (pre ++ (stringifyVal ind (encodeNote v) ++ (stringifyItems ind (ns.map encodeNote) ++ (cNewline :: (ind0 ++ (Char.ofNat 93 :: rest)))))) =
      some (encodeNote v :: ns.map encodeNote, rest) := by
  induction ns with
  | nil =>
    intro f pre hpre v ind0 ind hind hind0 rest
    have hfuel : f + (7 * ([] : List Note).length + 7) = (f + 6) + 1 := by
      simp
    rw [hfuel, parseElems_succ]
    have hv : parseVal (f + 6)
        (pre ++ (stringifyVal ind (encodeNote v) ++ (stringifyItems ind (([] : List Note).map encodeNote) ++ (cNewline :: (ind0 ++ (Char.ofNat 93 :: rest)))))) =
        some (encodeNote v, stringifyItems ind (([] : List Note).map encodeNote) ++ (cNewline :: (ind0 ++ (Char.ofNat 93 :: rest)))) :=
      parseVal_noteObj f pre hpre ind hind v _
    rw [hv]
    dsimp only
    have hclose : stringifyItems ind (([] : List Note).map encodeNote) ++ (cNewline :: (ind0 ++ (Char.ofNat 93 :: rest))) = (cNewline :: (ind0 ++ (Char.ofNat 93 :: rest))) := by
      simp [stringifyItems]
    rw [hclose]
    have hsk : skipWs (cNewline :: (ind0 ++ (Char.ofNat 93 :: rest))) = Char.ofNat 93 :: rest := by
      rw [skipWs_ws _ _ (by decide), skipWs_ws_append _ _ hind0,
        skipWs_not_ws _ _ (by decide)]
    rw [hsk]
    simp only [if_neg (by decide : ¬ Char.ofNat 93 = Char.ofNat 44), if_pos rfl]
    simp
  | cons n2 ns ih =>
    intro f pre hpre v ind0 ind hind hind0 rest
    have hfuel : f + (7 * (n2 :: ns).length + 7) = (f + (7 * ns.length + 13)) + 1 := by
      simp [List.length_cons]
      ring
    rw [hfuel, parseElems_succ]
    have hv : parseVal (f + (7 * ns.length + 13))
        (pre ++ (stringifyVal ind (encodeNote v) ++ (stringifyItems ind ((n2 :: ns).map encodeNote) ++ (cNewline :: (ind0 ++ (Char.ofNat 93 :: rest)))))) =
        some (encodeNote v, stringifyItems ind ((n2 :: ns).map encodeNote) ++ (cNewline :: (ind0 ++ (Char.ofNat 93 :: rest)))) :=
      parseVal_noteObj (f + (7 * ns.length + 7)) pre hpre ind hind v _
    rw [hv]
    dsimp only
    have hitems : stringifyItems ind ((n2 :: ns).map encodeNote) ++ (cNewline :: (ind0 ++ (Char.ofNat 93 :: rest))) =
        Char.ofNat 44 :: (cNewline :: (ind ++ (stringifyVal ind (encodeNote n2) ++
          (stringifyItems ind (ns.map encodeNote) ++ (cNewline :: (ind0 ++ (Char.ofNat 93 :: rest))))))) := by
      simp [stringifyItems, List.append_assoc]
    rw [hitems, skipWs_not_ws _ _ (by decide)]
    simp only [if_pos rfl]
    have hrec : parseElems (f + (7 * ns.length + 13))
        (cNewline :: (ind ++ (stringifyVal ind (encodeNote n2) ++
          (stringifyItems ind (ns.map encodeNote) ++ (cNewline :: (ind0 ++ (Char.ofNat 93 :: rest))))))) =
        some (encodeNote n2 :: ns.map encodeNote, rest) := by
      have hf2 : f + (7 * ns.length + 13) = (f + 6) + (7 * ns.length + 7) := by
        ring
      rw [hf2]
      exact ih (f + 6) (cNewline :: ind)
        (by
          intro c hc
          rcases List.mem_cons.mp hc with hc | hc
          · subst hc; decide
          · exact hind c hc)
        n2 ind0 ind hind hind0 rest
    rw [hrec]
    simp

/-- The serialization of a note object is at least two characters long. -/
theorem stringify_note_len (ind : List Char) (n : Note) :
    2 ≤ (stringifyVal ind (encodeNote n)).length := by
  simp only [encodeNote, stringifyVal, stringifyField, stringifyFields]
  simp [List.length_append]

/-- Each serialized array item contributes at least two characters. -/
theorem items_len_ge (ind : List Char) (ns : List Note) :
    2 * ns.length ≤ (stringifyItems ind (ns.map encodeNote)).length := by
  induction ns with
  | nil => simp [stringifyItems]
  | cons n2 ns ih =>
    simp only [List.map_cons, stringifyItems]
    simp only [List.length_cons, List.length_append]
    omega

/-- The serialization of a note object starts with an opening bracket. -/
theorem stringify_note_head (ind : List Char) (n : Note) :
    ∃ tl, stringifyVal ind (encodeNote n) = cLBrace :: tl := by
  simp only [encodeNote, stringifyVal, stringifyField, stringifyFields]
  exact ⟨_, rfl⟩

/-- Parsing the serialized nonempty note array with sufficient fuel
yields the array of note objects. -/
theorem parseVal_notesArr (n2 : Note) (ns : List Note) (F : Nat)
    (hF : 7 * ns.length + 8 ≤ F) (rest : List Char) :
    parseVal F (stringifyVal [] (JVal.jarr ((n2 :: ns).map encodeNote)) ++ rest) =
      some (JVal.jarr ((n2 :: ns).map encodeNote), rest) := by
  obtain ⟨f0, rfl⟩ : ∃ f0, F = (f0 + (7 * ns.length + 7)) + 1 :=
    ⟨F - (7 * ns.length + 8), by omega⟩
  have hexp : stringifyVal [] (JVal.jarr ((n2 :: ns).map encodeNote)) ++ rest =
      Char.ofNat 91 :: (cNewline :: (gapChars ++ (stringifyVal gapChars (encodeNote n2) ++ (stringifyItems gapChars (ns.map encodeNote) ++ (cNewline :: (([] : List Char) ++ (Char.ofNat 93 :: rest))))))) := by
    simp only [List.map_cons, stringifyVal]
    simp [List.append_assoc]
  rw [hexp, parseVal.eq_def]
  dsimp only
  rw [skipWs_not_ws _ _ (by decide)]
  simp only [if_neg (by decide : ¬ Char.ofNat 91 = cQuote), if_pos rfl]
  obtain ⟨tl, htl⟩ := stringify_note_head gapChars n2
  have hsk : skipWs (cNewline :: (gapChars ++ (stringifyVal gapChars (encodeNote n2) ++ (stringifyItems gapChars (ns.map encodeNote) ++ (cNewline :: (([] : List Char) ++ (Char.ofNat 93 :: rest))))))) =
      cLBrace :: (tl ++ (stringifyItems gapChars (ns.map encodeNote) ++ (cNewline :: (([] : List Char) ++ (Char.ofNat 93 :: rest))))) := by
    rw [skipWs_ws _ _ (by decide), skipWs_ws_append _ _ (by intro c hc; fin_cases hc <;> decide),
      htl, List.cons_append, skipWs_not_ws _ _ (by decide)]
  rw [hsk]
  simp only [if_neg (by decide : ¬ cLBrace = Char.ofNat 93)]
  rw [show (cLBrace :: (tl ++ (stringifyItems gapChars (ns.map encodeNote) ++ (cNewline :: (([] : List Char) ++ (Char.ofNat 93 :: rest))))) : List Char) =
      stringifyVal gapChars (encodeNote n2) ++ (stringifyItems gapChars (ns.map encodeNote) ++ (cNewline :: (([] : List Char) ++ (Char.ofNat 93 :: rest)))) from by rw [htl, List.cons_append]]
  have helems : parseElems (f0 + (7 * ns.length + 7))
      (stringifyVal gapChars (encodeNote n2) ++ (stringifyItems gapChars (ns.map encodeNote) ++ (cNewline :: (([] : List Char) ++ (Char.ofNat 93 :: rest))))) =
      some (encodeNote n2 :: ns.map encodeNote, rest) :=
    parseElems_notes ns f0 [] (by intro c hc; cases hc) n2 [] gapChars
      (by intro c hc; fin_cases hc <;> decide) (by intro c hc; cases hc) rest
  rw [helems]
  simp

/-- Round trip of the document text: parsing the pretty-printed note
collection yields exactly the array of note objects. -/
theorem parseJson_saveNotesText (ns : List Note) :
    parseJson (saveNotesText ns) = some (JVal.jarr (ns.map encodeNote)) := by
  cases ns with
  | nil =>
    have hs : saveNotesText [] = String.mk [Char.ofNat 91, Char.ofNat 93] := by
      unfold saveNotesText
      simp [stringifyVal]
    rw [hs]
    rfl
  | cons n2 ns =>
    unfold parseJson saveNotesText
    rw [show (String.mk (stringifyVal [] (JVal.jarr ((n2 :: ns).map encodeNote)))).data =
      stringifyVal [] (JVal.jarr ((n2 :: ns).map encodeNote)) from rfl]
    have hlen : 2 * ns.length + 2 ≤
        (stringifyVal [] (JVal.jarr ((n2 :: ns).map encodeNote))).length := by
      have hi := items_len_ge ([] ++ gapChars) ns
      have ho := stringify_note_len ([] ++ gapChars) n2
      simp only [List.map_cons, stringifyVal]
      simp only [List.length_cons, List.length_append]
      simp only [List.nil_append] at hi ho
      simp
      omega
    rw [← List.append_nil (stringifyVal [] (JVal.jarr ((n2 :: ns).map encodeNote)))]
    rw [parseVal_notesArr n2 ns _ (by simp only [List.append_nil]; omega) []]
    simp [skipWs]

/-- Reading the encoded object of a note back by field name recovers the
note. -/
theorem decodeNote_encodeNote (n : Note) : decodeNote (encodeNote n) = some n := by
  rfl

/-- Reading a list of encoded notes back recovers the list. -/
theorem decodeNotesList_encode (ns : List Note) :
    decodeNotesList (ns.map encodeNote) = some ns := by
  induction ns with
  | nil => rfl
  | cons n2 ns ih =>
    simp only [List.map_cons, decodeNotesList, decodeNote_encodeNote, ih]

/-- C8: saving a note collection through the `save-notes` handler and
loading it back through the `load-notes` handler yields an identical
collection — same length, same order, every note equal field-for-field. -/
theorem c8_save_load_roundtrip (ns : List Note) :
    loadDecoded (.content (saveNotesText ns)) = some ns := by
  unfold loadDecoded loadNotesHandler
  dsimp only
  rw [parseJson_saveNotesText]
  simp only [decodeNotes, decodeNotesList_encode]

/-- C10: a missing notes file resolves to the empty array rather than a
failure; only a read failure on an existing file, or contents that fail to
parse, reject. -/
theorem c10_load_missing_file :
    loadNotesHandler .absent = Except.ok (JVal.jarr []) ∧
    loadNotesHandler .unreadable = Except.error () ∧
    ∀ data : String,
      (loadNotesHandler (.content data) = Except.error () ↔ parseJson data = none) := by
  refine ⟨rfl, rfl, ?_⟩
  intro data
  unfold loadNotesHandler
  cases h : parseJson data <;> simp [h]
